import Mathlib

/-!
Verification of the paper-trading ledger of `app.py` (ProTrade Terminal).

The ledger keeps a cash balance, a portfolio (Python dict from symbol to
`{'qty': ..., 'avg_price': ...}`) and an append-only transaction log.
`execute_trade` mutates this state under BUY/SELL actions with every monetary
value rounded to 2 decimals at the point of computation.

Modelling decisions:
* Python floats rounded with `round(x, 2)` are modelled as exact rationals
  rounded to the nearest multiple of `1/100` (`round2` below: nearest integer
  number of cents, an exact tie going up; Python's float `round` only differs
  on exact binary ties, which the rounded 2-decimal amounts handled by this
  program never produce).
* The portfolio dict is an association list `List (String × Position)`;
  `lookup` is membership test / access, `updKey` is in-place assignment of an
  existing key, appending a singleton is insertion of a fresh key, `delKey`
  is `del`.
* `datetime.now()` timestamps are dropped from the transaction record: no
  verified property reads them.
* `st.success` / `st.error` calls are modelled by the returned `TradeResult`.
-/

namespace ProTrade

/-- `round(x, 2)`: rounding a rational to 2 decimal places
(`⌊q * 100 + 1/2⌋` is `round (q * 100)`, cf. `Mathlib`'s `round_eq`). -/
def round2 (q : ℚ) : ℚ := (⌊q * 100 + 1/2⌋ : ℤ) / 100

/-- A rational has at most 2 decimal digits (is an exact multiple of 0.01). -/
def twoDec (q : ℚ) : Prop := ∃ n : ℤ, q * 100 = n

/-- The trade action strings `"BUY"` / `"SELL"` accepted by `execute_trade`. -/
inductive Action where
  | BUY : Action
  | SELL : Action
deriving DecidableEq

/-- Outcome reported to the user: `st.success`, or one of the two
`st.error` messages (`"Insufficient Funds"` / `"Insufficient Shares"`). -/
inductive TradeResult where
  | success : TradeResult
  | insufficientFunds : TradeResult
  | insufficientShares : TradeResult
deriving DecidableEq

/-- One entry of `st.session_state.portfolio`: `{'qty': ..., 'avg_price': ...}`. -/
structure Position where
  qty : ℕ
  avg_price : ℚ
deriving DecidableEq

/-- One entry of `st.session_state.transactions`
(the `Date` field is omitted, see the module docstring). -/
structure Txn where
  ttype : Action
  symbol : String
  price : ℚ
  qty : ℕ
  total : ℚ
deriving DecidableEq

/-- The ledger state held in `st.session_state`. -/
structure Account where
  balance : ℚ
  portfolio : List (String × Position)
  transactions : List Txn
deriving DecidableEq

/-- Python dict access `m[s]` / membership `s in m` on the association list. -/
def lookup {α : Type} : List (String × α) → String → Option α
  | [], _ => none
  | (k, v) :: rest, s => if k = s then some v else lookup rest s

/-- Python dict assignment `m[s] = v` for a key already present:
replace the (first) binding of `s`, keep everything else. -/
def updKey {α : Type} : List (String × α) → String → α → List (String × α)
  | [], _, _ => []
  | (k, v) :: rest, s, v2 => if k = s then (s, v2) :: rest else (k, v) :: updKey rest s v2

/-- Python `del m[s]`: remove the binding of `s`. -/
def delKey {α : Type} (m : List (String × α)) (s : String) : List (String × α) :=
  m.filter (fun p => p.1 ≠ s)

/-- Fresh session state: `balance = 100000.00`, empty portfolio and log
(also the state produced by the Reset Account button). -/
def initialAccount : Account :=
  { balance := 100000, portfolio := [], transactions := [] }

/-- `execute_trade(action, symbol, price, qty)` from `app.py`.

```
price = round(price, 2)
cost = round(price * qty, 2)
if action == "BUY":
    if st.session_state.balance >= cost: ... else: error
elif action == "SELL":
    if symbol in portfolio and portfolio[symbol]['qty'] >= qty: ... else: error
```
-/
def execute_trade (st : Account) (action : Action) (symbol : String)
    (price : ℚ) (qty : ℕ) : Account × TradeResult :=
  let price := round2 price
  let cost := round2 (price * qty)
  match action with
  | Action.BUY =>
    if st.balance ≥ cost then
      let newPortfolio :=
        match lookup st.portfolio symbol with
        | some pos =>
          -- new weighted average: (old_avg * old_qty + cost) / (old_qty + qty)
          let new_avg := (pos.avg_price * pos.qty + cost) / ((pos.qty : ℚ) + qty)
          updKey st.portfolio symbol { qty := pos.qty + qty, avg_price := round2 new_avg }
        | none => st.portfolio ++ [(symbol, { qty := qty, avg_price := price })]
      ({ balance := round2 (st.balance - cost),
         portfolio := newPortfolio,
         transactions := st.transactions ++
           [{ ttype := Action.BUY, symbol := symbol, price := price, qty := qty, total := -cost }] },
       TradeResult.success)
    else
      (st, TradeResult.insufficientFunds)
  | Action.SELL =>
    match lookup st.portfolio symbol with
    | some pos =>
      if pos.qty ≥ qty then
        let newQty := pos.qty - qty
        ({ balance := round2 (st.balance + cost),
           portfolio :=
             if newQty = 0 then delKey st.portfolio symbol
             else updKey st.portfolio symbol { qty := newQty, avg_price := pos.avg_price },
           transactions := st.transactions ++
             [{ ttype := Action.SELL, symbol := symbol, price := price, qty := qty, total := cost }] },
         TradeResult.success)
      else
        (st, TradeResult.insufficientShares)
    | none => (st, TradeResult.insufficientShares)

/-- One user trade request, as fed to `execute_trade` by the trading panel. -/
structure TradeInput where
  action : Action
  symbol : String
  price : ℚ
  qty : ℕ
deriving DecidableEq

/-- Run a sequence of trade requests, threading the session state. -/
def runTrades (st : Account) (ts : List TradeInput) : Account :=
  ts.foldl (fun a t => (execute_trade a t.action t.symbol t.price t.qty).1) st

/-- `market_val = round(current_price * qty, 2)` from the portfolio table. -/
def market_val (current_price : ℚ) (qty : ℕ) : ℚ := round2 (current_price * qty)

/-- `unrealized_pl = round(market_val - (avg_price * qty), 2)` from the
portfolio table. -/
def unrealized_pl (current_price avg_price : ℚ) (qty : ℕ) : ℚ :=
  round2 (market_val current_price qty - avg_price * qty)

/-- One row of the rendered portfolio table. These are exactly the fields the
code appends to `rows`; there is no live-vs-fallback indicator field. -/
structure Row where
  symbol : String
  qty : ℕ
  avgCost : ℚ
  currentPrice : ℚ
  marketValue : ℚ
  unrealizedPL : ℚ
deriving DecidableEq

/-- Build the table row for a held symbol.  `live` is the batch-fetched live
price when available (`live_prices.get(sym, data['avg_price'])` falls back to
the stored average price when the symbol resolved to no live quote). Models
the loop body for a symbol other than the active chart ticker. -/
def buildRow (sym : String) (pos : Position) (live : Option ℚ) : Row :=
  let current_price := live.getD pos.avg_price
  { symbol := sym,
    qty := pos.qty,
    avgCost := pos.avg_price,
    currentPrice := current_price,
    marketValue := market_val current_price pos.qty,
    unrealizedPL := unrealized_pl current_price pos.avg_price pos.qty }

/-- All monetary fields readable from the account state have at most 2
decimal digits: the cash balance, every stored average price, and every
transaction's price and total. -/
def moneyOK (a : Account) : Prop :=
  twoDec a.balance ∧
  (∀ sp ∈ a.portfolio, twoDec (Prod.snd sp).avg_price) ∧
  (∀ t ∈ a.transactions, twoDec t.price ∧ twoDec t.total)

/-! ### Basic facts about `round2` and `twoDec` -/

lemma floor_half : ⌊(1/2 : ℚ)⌋ = 0 := by
  rw [Int.floor_eq_zero_iff]
  constructor <;> norm_num

/-- `round2` agrees with Mathlib's `round` of the number of cents. -/
lemma round2_eq_round (q : ℚ) : round2 q = (round (q * 100) : ℤ) / 100 := by
  rw [round2, round_eq]

/-- Evaluation of `round2` from an integer certificate for `q * 100`. -/
lemma round2_cert (q : ℚ) (n : ℤ) (h : q * 100 = n) : round2 q = n / 100 := by
  rw [round2, h, Int.floor_int_add, floor_half]
  norm_num

lemma twoDec_round2 (q : ℚ) : twoDec (round2 q) := by
  refine ⟨⌊q * 100 + 1/2⌋, ?_⟩
  rw [round2]
  field_simp

lemma round2_eq_self {q : ℚ} (h : twoDec q) : round2 q = q := by
  obtain ⟨n, hn⟩ := h
  rw [round2_cert q n hn, ← hn]
  field_simp

lemma round2_nonneg {q : ℚ} (h : 0 ≤ q) : 0 ≤ round2 q := by
  rw [round2]
  apply div_nonneg _ (by norm_num)
  have : (0 : ℤ) ≤ ⌊q * 100 + 1/2⌋ := Int.le_floor.mpr (by push_cast; nlinarith)
  exact_mod_cast this

lemma twoDec_neg {q : ℚ} (h : twoDec q) : twoDec (-q) := by
  obtain ⟨n, hn⟩ := h
  exact ⟨-n, by push_cast [← hn]; ring⟩

lemma twoDec_mul_nat {q : ℚ} (h : twoDec q) (k : ℕ) : twoDec (q * k) := by
  obtain ⟨n, hn⟩ := h
  refine ⟨n * k, ?_⟩
  push_cast [← hn]
  ring

lemma twoDec_initial : twoDec (initialAccount.balance) := ⟨10000000, by norm_num [initialAccount]⟩

/-! ### Basic facts about `lookup`, `updKey`, `delKey` -/

lemma lookup_updKey_self {α : Type} (m : List (String × α)) (s : String) (v : α)
    (h : (lookup m s).isSome) : lookup (updKey m s v) s = some v := by
  induction m with
  | nil => simp [lookup] at h
  | cons hd tl ih =>
    obtain ⟨k, w⟩ := hd
    by_cases hk : k = s
    · subst hk
      simp [lookup, updKey]
    · simp only [lookup, updKey, if_neg hk] at h ⊢
      exact ih h

lemma lookup_updKey_other {α : Type} (m : List (String × α)) (s s2 : String) (v : α)
    (h : s2 ≠ s) : lookup (updKey m s v) s2 = lookup m s2 := by
  induction m with
  | nil => simp [lookup, updKey]
  | cons hd tl ih =>
    obtain ⟨k, w⟩ := hd
    by_cases hk : k = s
    · subst hk
      simp [lookup, updKey, if_neg (Ne.symm h)]
    · simp only [lookup, updKey, if_neg hk]
      by_cases hk2 : k = s2
      · simp [if_pos hk2]
      · simp only [if_neg hk2]
        exact ih

lemma lookup_delKey_self {α : Type} (m : List (String × α)) (s : String) :
    lookup (delKey m s) s = none := by
  induction m with
  | nil => simp [lookup, delKey]
  | cons hd tl ih =>
    obtain ⟨k, w⟩ := hd
    by_cases hk : k = s
    · subst hk
      simpa [delKey, List.filter] using ih
    · simpa [delKey, List.filter, hk, lookup, if_neg hk] using ih

lemma lookup_delKey_other {α : Type} (m : List (String × α)) (s s2 : String)
    (h : s2 ≠ s) : lookup (delKey m s) s2 = lookup m s2 := by
  induction m with
  | nil => simp [lookup, delKey]
  | cons hd tl ih =>
    obtain ⟨k, w⟩ := hd
    by_cases hk : k = s
    · subst hk
      simpa [delKey, List.filter, lookup, if_neg (Ne.symm h)] using ih
    · by_cases hk2 : k = s2
      · subst hk2
        simp [delKey, List.filter, hk, lookup]
      · simpa [delKey, List.filter, hk, lookup, if_neg hk2] using ih

lemma lookup_append_single {α : Type} (m : List (String × α)) (k s : String) (v : α) :
    lookup (m ++ [(k, v)]) s =
      match lookup m s with
      | some w => some w
      | none => if k = s then some v else none := by
  induction m with
  | nil => simp [lookup]
  | cons hd tl ih =>
    obtain ⟨k2, w⟩ := hd
    by_cases hk : k2 = s
    · simp [lookup, if_pos hk]
    · simpa [lookup, if_neg hk] using ih

lemma mem_updKey {α : Type} (m : List (String × α)) (s : String) (v : α) (x : String × α)
    (h : x ∈ updKey m s v) : x ∈ m ∨ x.2 = v := by
  induction m with
  | nil => simp [updKey] at h
  | cons hd tl ih =>
    obtain ⟨k, w⟩ := hd
    by_cases hk : k = s
    · rw [updKey, if_pos hk] at h
      rcases List.mem_cons.mp h with h1 | h1
      · right; rw [h1]
      · left; exact List.mem_cons_of_mem _ h1
    · rw [updKey, if_neg hk] at h
      rcases List.mem_cons.mp h with h1 | h1
      · left; rw [h1]; exact List.mem_cons_self _ _
      · rcases ih h1 with h2 | h2
        · left; exact List.mem_cons_of_mem _ h2
        · right; exact h2

lemma mem_delKey {α : Type} (m : List (String × α)) (s : String) (x : String × α)
    (h : x ∈ delKey m s) : x ∈ m :=
  List.mem_of_mem_filter h

lemma runTrades_nil (st : Account) : runTrades st [] = st := rfl

lemma runTrades_cons (st : Account) (t : TradeInput) (ts : List TradeInput) :
    runTrades st (t :: ts) =
      runTrades (execute_trade st t.action t.symbol t.price t.qty).1 ts := rfl

/-! ### Step lemmas: single-trade preservation of the account invariants -/

/-- One `execute_trade` call with a positive price keeps the balance
non-negative. -/
lemma balance_nonneg_step (st : Account) (a : Action) (sym : String) (price : ℚ)
    (qty : ℕ) (hb : 0 ≤ st.balance) (hp : 0 < price) :
    0 ≤ (execute_trade st a sym price qty).1.balance := by
  have hcost : 0 ≤ round2 (round2 price * qty) :=
    round2_nonneg (mul_nonneg (round2_nonneg hp.le) (Nat.cast_nonneg qty))
  cases a
  case BUY =>
    by_cases hcond : st.balance ≥ round2 (round2 price * qty)
    · have h2 : 0 ≤ st.balance - round2 (round2 price * qty) := by linarith
      simpa [execute_trade, hcond] using round2_nonneg h2
    · simpa [execute_trade, hcond] using hb
  case SELL =>
    cases hl : lookup st.portfolio sym with
    | none => simpa [execute_trade, hl] using hb
    | some pos =>
      by_cases hq : pos.qty ≥ qty
      · have h2 : 0 ≤ st.balance + round2 (round2 price * qty) := by linarith
        simpa [execute_trade, hl, hq] using round2_nonneg h2
      · simpa [execute_trade, hl, hq] using hb

/-- Every position looked up in the account has positive quantity. -/
def posQtyPos (st : Account) : Prop :=
  ∀ s pos, lookup st.portfolio s = some pos → 0 < pos.qty

/-- One `execute_trade` call with a positive quantity preserves positivity of
all held quantities. -/
lemma posQtyPos_step (st : Account) (a : Action) (sym : String) (price : ℚ)
    (qty : ℕ) (hinv : posQtyPos st) (hq : 0 < qty) :
    posQtyPos (execute_trade st a sym price qty).1 := by
  cases a
  case BUY =>
    by_cases hcond : st.balance ≥ round2 (round2 price * qty)
    · cases hl : lookup st.portfolio sym with
      | some pos =>
        intro s p hp2
        simp only [execute_trade, hl, if_pos hcond] at hp2
        by_cases hs : s = sym
        · subst hs
          rw [lookup_updKey_self _ _ _ (by rw [hl]; rfl)] at hp2
          cases hp2
          exact Nat.add_pos_right _ hq
        · rw [lookup_updKey_other _ _ _ _ hs] at hp2
          exact hinv s p hp2
      | none =>
        intro s p hp2
        simp only [execute_trade, hl, if_pos hcond] at hp2
        rw [lookup_append_single] at hp2
        rcases h2 : lookup st.portfolio s with _ | pos2
        · rw [h2] at hp2
          simp only [] at hp2
          by_cases hs : sym = s
          · rw [if_pos hs] at hp2
            cases hp2
            exact hq
          · rw [if_neg hs] at hp2
            exact absurd hp2 (by simp)
        · rw [h2] at hp2
          simp only [Option.some.injEq] at hp2
          rw [← hp2]
          exact hinv s pos2 h2
    · intro s p hp2
      simp only [execute_trade, if_neg hcond] at hp2
      exact hinv s p hp2
  case SELL =>
    cases hl : lookup st.portfolio sym with
    | none =>
      intro s p hp2
      simp only [execute_trade, hl] at hp2
      exact hinv s p hp2
    | some pos =>
      by_cases hcond : pos.qty ≥ qty
      · intro s p hp2
        simp only [execute_trade, hl, if_pos hcond] at hp2
        by_cases hz : pos.qty - qty = 0
        · rw [if_pos hz] at hp2
          by_cases hs : s = sym
          · subst hs
            rw [lookup_delKey_self] at hp2
            exact absurd hp2 (by simp)
          · rw [lookup_delKey_other _ _ _ hs] at hp2
            exact hinv s p hp2
        · rw [if_neg hz] at hp2
          by_cases hs : s = sym
          · subst hs
            rw [lookup_updKey_self _ _ _ (by rw [hl]; rfl)] at hp2
            cases hp2
            exact Nat.pos_of_ne_zero hz
          · rw [lookup_updKey_other _ _ _ _ hs] at hp2
            exact hinv s p hp2
      · intro s p hp2
        simp only [execute_trade, hl, if_neg hcond] at hp2
        exact hinv s p hp2

lemma lookup_mem {α : Type} (m : List (String × α)) (s : String) (v : α)
    (h : lookup m s = some v) : (s, v) ∈ m := by
  induction m with
  | nil => simp [lookup] at h
  | cons hd tl ih =>
    obtain ⟨k, w⟩ := hd
    by_cases hk : k = s
    · subst hk
      rw [lookup, if_pos rfl] at h
      cases h
      exact List.mem_cons_self _ _
    · rw [lookup, if_neg hk] at h
      exact List.mem_cons_of_mem _ (ih h)

/-- One `execute_trade` call keeps every stored monetary field an exact
multiple of 0.01 (no positivity of the inputs is needed: every stored value
passes through `round2`, and an inserted position's price is the rounded
input price). -/
lemma moneyOK_step (st : Account) (a : Action) (sym : String) (price : ℚ)
    (qty : ℕ) (h : moneyOK st) : moneyOK (execute_trade st a sym price qty).1 := by
  obtain ⟨hb, hport, htxn⟩ := h
  have htxn2 : ∀ (tt : Action) (tot : ℚ), twoDec tot →
      ∀ t ∈ st.transactions ++
        [{ ttype := tt, symbol := sym, price := round2 price, qty := qty, total := tot : Txn }],
      twoDec t.price ∧ twoDec t.total := by
    intro tt tot htot t ht
    rcases List.mem_append.mp ht with h2 | h2
    · exact htxn t h2
    · rw [List.mem_singleton] at h2
      subst h2
      exact ⟨twoDec_round2 _, htot⟩
  cases a
  case BUY =>
    by_cases hcond : st.balance ≥ round2 (round2 price * qty)
    · cases hl : lookup st.portfolio sym with
      | some pos =>
        refine ⟨?_, ?_, ?_⟩
        · simpa [execute_trade, hcond, hl] using twoDec_round2 _
        · intro sp hsp
          simp only [execute_trade, hcond, hl, if_pos hcond] at hsp
          rcases mem_updKey _ _ _ _ hsp with h2 | h2
          · exact hport sp h2
          · rw [h2]
            exact twoDec_round2 _
        · intro t ht
          simp only [execute_trade, hcond, hl, if_pos hcond] at ht
          exact htxn2 Action.BUY _ (twoDec_neg (twoDec_round2 _)) t ht
      | none =>
        refine ⟨?_, ?_, ?_⟩
        · simpa [execute_trade, hcond, hl] using twoDec_round2 _
        · intro sp hsp
          simp only [execute_trade, hcond, hl, if_pos hcond] at hsp
          rcases List.mem_append.mp hsp with h2 | h2
          · exact hport sp h2
          · rw [List.mem_singleton] at h2
            subst h2
            exact twoDec_round2 _
        · intro t ht
          simp only [execute_trade, hcond, hl, if_pos hcond] at ht
          exact htxn2 Action.BUY _ (twoDec_neg (twoDec_round2 _)) t ht
    · refine ⟨?_, ?_, ?_⟩ <;> simp only [execute_trade, if_neg hcond]
      · exact hb
      · exact hport
      · exact htxn
  case SELL =>
    cases hl : lookup st.portfolio sym with
    | none =>
      refine ⟨?_, ?_, ?_⟩ <;> simp only [execute_trade, hl]
      · exact hb
      · exact hport
      · exact htxn
    | some pos =>
      by_cases hcond : pos.qty ≥ qty
      · refine ⟨?_, ?_, ?_⟩
        · simpa [execute_trade, hl, hcond] using twoDec_round2 _
        · intro sp hsp
          simp only [execute_trade, hl, if_pos hcond] at hsp
          by_cases hz : pos.qty - qty = 0
          · rw [if_pos hz] at hsp
            exact hport sp (mem_delKey _ _ _ hsp)
          · rw [if_neg hz] at hsp
            rcases mem_updKey _ _ _ _ hsp with h2 | h2
            · exact hport sp h2
            · rw [h2]
              exact hport (sym, pos) (lookup_mem _ _ _ hl)
        · intro t ht
          simp only [execute_trade, hl, if_pos hcond] at ht
          exact htxn2 Action.SELL _ (twoDec_round2 _) t ht
      · refine ⟨?_, ?_, ?_⟩ <;> simp only [execute_trade, hl, if_neg hcond]
        · exact hb
        · exact hport
        · exact htxn

/-- `moneyOK` is preserved along any sequence of trades. -/
lemma moneyOK_runTrades (l : List TradeInput) :
    ∀ st : Account, moneyOK st → moneyOK (runTrades st l) := by
  induction l with
  | nil => intro st h0; simpa [runTrades_nil] using h0
  | cons t ts2 ih =>
    intro st h0
    rw [runTrades_cons]
    exact ih _ (moneyOK_step _ _ _ _ _ h0)

/-- The fresh account satisfies `moneyOK`. -/
lemma moneyOK_initial : moneyOK initialAccount :=
  ⟨twoDec_initial,
   by intro sp hsp; simp [initialAccount] at hsp,
   by intro t ht; simp [initialAccount] at ht⟩

/-! ### Claim theorems -/

/-- C1: if `execute_trade` fails (BUY with insufficient funds, or SELL with no
position / insufficient shares), the account state after the call — cash
balance, positions, and transactions — is identical to the pre-call state:
no state change occurs on any failure path. -/
theorem execute_trade_atomic_rejection (st : Account) (a : Action) (sym : String)
    (price : ℚ) (qty : ℕ)
    (h : (execute_trade st a sym price qty).2 ≠ TradeResult.success) :
    (execute_trade st a sym price qty).1 = st := by
  cases a
  case BUY =>
    by_cases hb : st.balance ≥ round2 (round2 price * qty)
    · exact absurd (by simp [execute_trade, hb]) h
    · simp [execute_trade, hb]
  case SELL =>
    cases hl : lookup st.portfolio sym with
    | none => simp [execute_trade, hl]
    | some pos =>
      by_cases hq : pos.qty ≥ qty
      · exact absurd (by simp [execute_trade, hl, hq]) h
      · simp [execute_trade, hl, hq]

/-- Witness for C1: a SELL on the fresh account (no position held) fails and
leaves the account unchanged. -/
theorem execute_trade_atomic_rejection_witness :
    (execute_trade initialAccount Action.SELL "A" 10 1).2 ≠ TradeResult.success ∧
    (execute_trade initialAccount Action.SELL "A" 10 1).1 = initialAccount :=
  ⟨by simp [execute_trade, initialAccount, lookup],
   execute_trade_atomic_rejection _ _ _ _ _
     (by simp [execute_trade, initialAccount, lookup])⟩

/-- C2: for positive price and quantity, `execute_trade` fails with
`InsufficientFunds` exactly when the action is BUY and
`cash_balance < round(round(price, 2) * quantity, 2)`, fails with
`InsufficientShares` exactly when the action is SELL and no position exists
for the symbol or the held quantity is below the requested one, and succeeds
in every other case. -/
theorem execute_trade_failure_iff (st : Account) (a : Action) (sym : String)
    (price : ℚ) (qty : ℕ) (hp : 0 < price) (hq : 0 < qty) :
    ((execute_trade st a sym price qty).2 = TradeResult.insufficientFunds ↔
      a = Action.BUY ∧ st.balance < round2 (round2 price * qty)) ∧
    ((execute_trade st a sym price qty).2 = TradeResult.insufficientShares ↔
      a = Action.SELL ∧ (lookup st.portfolio sym = none ∨
        ∃ pos, lookup st.portfolio sym = some pos ∧ pos.qty < qty)) ∧
    ((execute_trade st a sym price qty).2 = TradeResult.success ↔
      (a = Action.BUY ∧ round2 (round2 price * qty) ≤ st.balance) ∨
      (a = Action.SELL ∧ ∃ pos, lookup st.portfolio sym = some pos ∧ qty ≤ pos.qty)) := by
  cases a
  case BUY =>
    by_cases hb : st.balance ≥ round2 (round2 price * qty)
    · refine ⟨?_, ?_, ?_⟩ <;> simp [execute_trade, hb, not_lt.mpr hb]
    · refine ⟨?_, ?_, ?_⟩ <;> simp [execute_trade, hb, lt_of_not_ge hb, not_le.mpr (lt_of_not_ge hb)]
  case SELL =>
    cases hl : lookup st.portfolio sym with
    | none => refine ⟨?_, ?_, ?_⟩ <;> simp [execute_trade, hl]
    | some pos =>
      by_cases hq2 : pos.qty ≥ qty
      · refine ⟨?_, ?_, ?_⟩ <;> simp [execute_trade, hl, hq2, not_lt.mpr hq2]
      · refine ⟨?_, ?_, ?_⟩ <;>
          simp [execute_trade, hl, hq2, lt_of_not_ge hq2, not_le.mpr (lt_of_not_ge hq2)]

/-- Witness for C2: a SELL of 1 share of an unheld symbol on the fresh
account is reported as `InsufficientShares`. -/
theorem execute_trade_failure_iff_witness :
    0 < (10 : ℚ) ∧ 0 < 1 ∧
    ((execute_trade initialAccount Action.SELL "A" 10 1).2 = TradeResult.insufficientShares ↔
      Action.SELL = Action.SELL ∧ (lookup initialAccount.portfolio "A" = none ∨
        ∃ pos, lookup initialAccount.portfolio "A" = some pos ∧ pos.qty < 1)) :=
  ⟨by norm_num, by norm_num,
   (execute_trade_failure_iff initialAccount Action.SELL "A" 10 1
     (by norm_num) (by norm_num)).2.1⟩

/-- C3: starting from the fresh account (`cash_balance = 100000.00`), any
sequence of trades with positive prices and quantities leaves the cash
balance non-negative after every call (every sequence of such trades, hence
every prefix of it, ends with `cash_balance ≥ 0`). -/
theorem runTrades_balance_nonneg (ts : List TradeInput)
    (h : ∀ t ∈ ts, 0 < t.price ∧ 0 < t.qty) :
    0 ≤ (runTrades initialAccount ts).balance := by
  have general : ∀ (l : List TradeInput) (st : Account), 0 ≤ st.balance →
      (∀ t ∈ l, 0 < t.price ∧ 0 < t.qty) → 0 ≤ (runTrades st l).balance := by
    intro l
    induction l with
    | nil => intro st h0 _; simpa [runTrades_nil] using h0
    | cons t ts2 ih =>
      intro st h0 hall
      rw [runTrades_cons]
      exact ih _
        (balance_nonneg_step _ _ _ _ _ h0 (hall t (List.mem_cons_self _ _)).1)
        (fun t2 ht2 => hall t2 (List.mem_cons_of_mem _ ht2))
  exact general ts initialAccount (by norm_num [initialAccount]) h

/-- Witness for C3: after a single BUY of 1 share at $10 the balance is still
non-negative. -/
theorem runTrades_balance_nonneg_witness :
    (∀ t ∈ [TradeInput.mk Action.BUY "A" 10 1], 0 < t.price ∧ 0 < t.qty) ∧
    0 ≤ (runTrades initialAccount [TradeInput.mk Action.BUY "A" 10 1]).balance :=
  ⟨by intro t ht
      rw [List.mem_singleton] at ht
      subst ht
      exact ⟨by norm_num, by norm_num⟩,
   runTrades_balance_nonneg _
     (by intro t ht
         rw [List.mem_singleton] at ht
         subst ht
         exact ⟨by norm_num, by norm_num⟩)⟩

/-- C4: starting from the fresh (empty-positions) account, for any sequence
of trades with positive quantities every symbol present in the positions map
has a positive quantity after every call; and a SELL of a position's entire
quantity removes that symbol's entry from the map. -/
theorem positions_qty_pos_and_liquidation :
    (∀ ts : List TradeInput, (∀ t ∈ ts, 0 < t.qty) →
      ∀ s pos, lookup (runTrades initialAccount ts).portfolio s = some pos → 0 < pos.qty) ∧
    (∀ (st : Account) (sym : String) (price : ℚ) (pos : Position),
      lookup st.portfolio sym = some pos →
      lookup (execute_trade st Action.SELL sym price pos.qty).1.portfolio sym = none) := by
  constructor
  · have general : ∀ (l : List TradeInput) (st : Account), posQtyPos st →
        (∀ t ∈ l, 0 < t.qty) → posQtyPos (runTrades st l) := by
      intro l
      induction l with
      | nil => intro st h0 _; simpa [runTrades_nil] using h0
      | cons t ts2 ih =>
        intro st h0 hall
        rw [runTrades_cons]
        exact ih _
          (posQtyPos_step _ _ _ _ _ h0 (hall t (List.mem_cons_self _ _)))
          (fun t2 ht2 => hall t2 (List.mem_cons_of_mem _ ht2))
    intro ts hts
    exact general ts initialAccount (by intro s pos hl; simp [initialAccount, lookup] at hl) hts
  · intro st sym price pos hpos
    have hport : (execute_trade st Action.SELL sym price pos.qty).1.portfolio =
        delKey st.portfolio sym := by
      simp [execute_trade, hpos]
    rw [hport, lookup_delKey_self]

/-- Witness for C4: BUY 5 of "A" at $10 from the fresh account gives a
position of quantity 5 > 0, and selling all 5 removes the entry. -/
theorem positions_qty_pos_and_liquidation_witness :
    (∀ t ∈ [TradeInput.mk Action.BUY "A" 10 5], 0 < t.qty) ∧
    lookup (runTrades initialAccount [TradeInput.mk Action.BUY "A" 10 5]).portfolio "A" =
      some (Position.mk 5 10) ∧
    0 < (Position.mk 5 10).qty ∧
    lookup (execute_trade (runTrades initialAccount [TradeInput.mk Action.BUY "A" 10 5])
      Action.SELL "A" 20 (Position.mk 5 10).qty).1.portfolio "A" = none := by
  have hq : ∀ t ∈ [TradeInput.mk Action.BUY "A" 10 5], 0 < t.qty := by
    intro t ht
    rw [List.mem_singleton] at ht
    subst ht
    norm_num
  have e1 : round2 (10 : ℚ) = 10 := by rw [round2_cert (10:ℚ) 1000 (by norm_num)]; norm_num
  have e2 : round2 (50 : ℚ) = 50 := by rw [round2_cert (50:ℚ) 5000 (by norm_num)]; norm_num
  have hlook : lookup (runTrades initialAccount
      [TradeInput.mk Action.BUY "A" 10 5]).portfolio "A" = some (Position.mk 5 10) := by
    have hrun : (runTrades initialAccount [TradeInput.mk Action.BUY "A" 10 5]).portfolio =
        [("A", Position.mk 5 10)] := by
      norm_num [runTrades, execute_trade, initialAccount, lookup, e1, e2]
    rw [hrun]
    simp [lookup]
  exact ⟨hq, hlook,
    positions_qty_pos_and_liquidation.1 _ hq "A" (Position.mk 5 10) hlook,
    positions_qty_pos_and_liquidation.2 _ "A" 20 (Position.mk 5 10) hlook⟩

/-- C5: a successful BUY on an already-held symbol yields quantity
`old_quantity + quantity` and
`average_price = round(((old_average_price * old_quantity) + cost) / (old_quantity + quantity), 2)`
where `cost = round(round(price, 2) * quantity, 2)`. -/
theorem buy_existing_weighted_avg (st : Account) (sym : String) (price : ℚ)
    (qty oq : ℕ) (oa : ℚ)
    (hpos : lookup st.portfolio sym = some (Position.mk oq oa))
    (hfunds : round2 (round2 price * qty) ≤ st.balance) :
    lookup (execute_trade st Action.BUY sym price qty).1.portfolio sym =
      some (Position.mk (oq + qty)
        (round2 ((oa * oq + round2 (round2 price * qty)) / ((oq : ℚ) + qty)))) := by
  have hcond : st.balance ≥ round2 (round2 price * qty) := hfunds
  simp only [execute_trade, hpos, if_pos hcond]
  rw [lookup_updKey_self _ _ _ (by rw [hpos]; rfl)]

/-- Witness for C5: from the fresh account, BUY 10 @ $100 then BUY 10 @ $200
of the same symbol yields `average_price = 150.00` and `quantity = 20`. -/
theorem buy_existing_weighted_avg_witness :
    lookup (execute_trade initialAccount Action.BUY "A" 100 10).1.portfolio "A" =
      some (Position.mk 10 100) ∧
    round2 (round2 200 * (10 : ℕ)) ≤ (execute_trade initialAccount Action.BUY "A" 100 10).1.balance ∧
    lookup (execute_trade (execute_trade initialAccount Action.BUY "A" 100 10).1
      Action.BUY "A" 200 10).1.portfolio "A" = some (Position.mk 20 150) := by
  have e100 : round2 (100 : ℚ) = 100 := by
    rw [round2_cert (100:ℚ) 10000 (by norm_num)]; norm_num
  have e1000 : round2 (1000 : ℚ) = 1000 := by
    rw [round2_cert (1000:ℚ) 100000 (by norm_num)]; norm_num
  have e99000 : round2 (99000 : ℚ) = 99000 := by
    rw [round2_cert (99000:ℚ) 9900000 (by norm_num)]; norm_num
  have e200 : round2 (200 : ℚ) = 200 := by
    rw [round2_cert (200:ℚ) 20000 (by norm_num)]; norm_num
  have e2000 : round2 (2000 : ℚ) = 2000 := by
    rw [round2_cert (2000:ℚ) 200000 (by norm_num)]; norm_num
  have e150 : round2 (150 : ℚ) = 150 := by
    rw [round2_cert (150:ℚ) 15000 (by norm_num)]; norm_num
  have hport : (execute_trade initialAccount Action.BUY "A" 100 10).1.portfolio =
      [("A", Position.mk 10 100)] := by
    norm_num [execute_trade, initialAccount, lookup, e100, e1000, e99000]
  have hbal : (execute_trade initialAccount Action.BUY "A" 100 10).1.balance = 99000 := by
    norm_num [execute_trade, initialAccount, lookup, e100, e1000, e99000]
  have h1 : lookup (execute_trade initialAccount Action.BUY "A" 100 10).1.portfolio "A" =
      some (Position.mk 10 100) := by
    rw [hport]; simp [lookup]
  have h2 : round2 (round2 200 * (10 : ℕ)) ≤
      (execute_trade initialAccount Action.BUY "A" 100 10).1.balance := by
    rw [hbal]
    norm_num [e200, e2000]
  have h3 := buy_existing_weighted_avg
    (execute_trade initialAccount Action.BUY "A" 100 10).1 "A" 200 10 10 100 h1 h2
  refine ⟨h1, h2, ?_⟩
  rw [h3]
  norm_num [e200, e2000, e150]

/-- C6: a successful SELL that leaves a strictly positive remaining quantity
keeps the position's `average_price` unchanged, only decreasing its quantity
(the cost basis is never mutated by a SELL). -/
theorem sell_partial_preserves_avg (st : Account) (sym : String) (price : ℚ)
    (qty : ℕ) (pos : Position)
    (hpos : lookup st.portfolio sym = some pos) (hlt : qty < pos.qty) :
    lookup (execute_trade st Action.SELL sym price qty).1.portfolio sym =
      some (Position.mk (pos.qty - qty) pos.avg_price) := by
  have hge : pos.qty ≥ qty := le_of_lt hlt
  have hnz : ¬(pos.qty - qty = 0) := by omega
  simp only [execute_trade, hpos, if_pos hge, if_neg hnz]
  exact lookup_updKey_self _ _ _ (by rw [hpos]; rfl)

/-- Witness for C6: BUY 5 @ $10 then SELL 2 @ $12 leaves a position of 3
shares at the original $10 average price. -/
theorem sell_partial_preserves_avg_witness :
    lookup (execute_trade initialAccount Action.BUY "A" 10 5).1.portfolio "A" =
      some (Position.mk 5 10) ∧
    2 < (Position.mk 5 10).qty ∧
    lookup (execute_trade (execute_trade initialAccount Action.BUY "A" 10 5).1
      Action.SELL "A" 12 2).1.portfolio "A" = some (Position.mk 3 10) := by
  have e1 : round2 (10 : ℚ) = 10 := by rw [round2_cert (10:ℚ) 1000 (by norm_num)]; norm_num
  have e2 : round2 (50 : ℚ) = 50 := by rw [round2_cert (50:ℚ) 5000 (by norm_num)]; norm_num
  have hport : (execute_trade initialAccount Action.BUY "A" 10 5).1.portfolio =
      [("A", Position.mk 5 10)] := by
    norm_num [execute_trade, initialAccount, lookup, e1, e2]
  have h1 : lookup (execute_trade initialAccount Action.BUY "A" 10 5).1.portfolio "A" =
      some (Position.mk 5 10) := by
    rw [hport]; simp [lookup]
  exact ⟨h1, by norm_num,
    sell_partial_preserves_avg (execute_trade initialAccount Action.BUY "A" 10 5).1
      "A" 12 2 (Position.mk 5 10) h1 (by norm_num)⟩

/-- C7: after any sequence of trades with positive prices and quantities
starting from the fresh account, every monetary field readable from the
account — the cash balance, each position's average price, and each
transaction's price and total — is an exact multiple of 0.01. -/
theorem runTrades_moneyOK (ts : List TradeInput)
    (h : ∀ t ∈ ts, 0 < t.price ∧ 0 < t.qty) :
    moneyOK (runTrades initialAccount ts) := by
  have general : ∀ (l : List TradeInput) (st : Account), moneyOK st →
      moneyOK (runTrades st l) := by
    intro l
    induction l with
    | nil => intro st h0; simpa [runTrades_nil] using h0
    | cons t ts2 ih =>
      intro st h0
      rw [runTrades_cons]
      exact ih _ (moneyOK_step _ _ _ _ _ h0)
  exact general ts initialAccount
    ⟨twoDec_initial,
     by intro sp hsp; simp [initialAccount] at hsp,
     by intro t ht; simp [initialAccount] at ht⟩

/-- Witness for C7: one BUY of 1 share at $10 keeps all monetary fields at
2-decimal precision. -/
theorem runTrades_moneyOK_witness :
    (∀ t ∈ [TradeInput.mk Action.BUY "A" 10 1], 0 < t.price ∧ 0 < t.qty) ∧
    moneyOK (runTrades initialAccount [TradeInput.mk Action.BUY "A" 10 1]) :=
  ⟨by intro t ht
      rw [List.mem_singleton] at ht
      subst ht
      exact ⟨by norm_num, by norm_num⟩,
   runTrades_moneyOK _
     (by intro t ht
         rw [List.mem_singleton] at ht
         subst ht
         exact ⟨by norm_num, by norm_num⟩)⟩

/-- C8: for every held symbol — i.e. every position stored in an account
reached by any sequence of trades — with quantity Q, average price A and any
current price P used for valuation, the displayed market value equals
`round(P * Q, 2)` and the displayed unrealized P/L equals
`round(round(P * Q, 2) - round(A * Q, 2), 2)`.  The code writes the
subtrahend as the unrounded `A * Q`, but every stored average price is an
exact cent multiple, so `A * Q` is already an exact cent multiple and
rounding it to 2 decimals is the identity: the displayed value equals the
claimed formula with the cost-basis term rounded before the subtraction. -/
theorem unrealized_pl_rounded_basis (ts : List TradeInput) (sym : String)
    (pos : Position)
    (hpos : lookup (runTrades initialAccount ts).portfolio sym = some pos)
    (current_price : ℚ) :
    market_val current_price pos.qty = round2 (current_price * pos.qty) ∧
    unrealized_pl current_price pos.avg_price pos.qty =
      round2 (market_val current_price pos.qty - round2 (pos.avg_price * pos.qty)) := by
  have hA : twoDec pos.avg_price :=
    (moneyOK_runTrades ts initialAccount moneyOK_initial).2.1 (sym, pos)
      (lookup_mem _ _ _ hpos)
  refine ⟨rfl, ?_⟩
  rw [unrealized_pl, round2_eq_self (twoDec_mul_nat hA pos.qty)]

/-- Witness for C8: the position of 5 shares at average price $10 held after
BUY 5 of "A" at $10, valued at a live price of $12. -/
theorem unrealized_pl_rounded_basis_witness :
    lookup (runTrades initialAccount [TradeInput.mk Action.BUY "A" 10 5]).portfolio "A" =
      some (Position.mk 5 10) ∧
    (market_val 12 (Position.mk 5 10).qty =
       round2 ((12 : ℚ) * (Position.mk 5 10).qty) ∧
     unrealized_pl 12 (Position.mk 5 10).avg_price (Position.mk 5 10).qty =
       round2 (market_val 12 (Position.mk 5 10).qty -
         round2 ((Position.mk 5 10).avg_price * (Position.mk 5 10).qty))) := by
  have e1 : round2 (10 : ℚ) = 10 := by rw [round2_cert (10:ℚ) 1000 (by norm_num)]; norm_num
  have e2 : round2 (50 : ℚ) = 50 := by rw [round2_cert (50:ℚ) 5000 (by norm_num)]; norm_num
  have hlook : lookup (runTrades initialAccount
      [TradeInput.mk Action.BUY "A" 10 5]).portfolio "A" = some (Position.mk 5 10) := by
    have hrun : (runTrades initialAccount [TradeInput.mk Action.BUY "A" 10 5]).portfolio =
        [("A", Position.mk 5 10)] := by
      norm_num [runTrades, execute_trade, initialAccount, lookup, e1, e2]
    rw [hrun]
    simp [lookup]
  exact ⟨hlook,
    unrealized_pl_rounded_basis [TradeInput.mk Action.BUY "A" 10 5] "A"
      (Position.mk 5 10) hlook 12⟩

/-- C9: the portfolio table row rendered for a held symbol whose live price
could not be obtained (fallback to the stored average price) is identical to
the row rendered for a live quote that happens to equal the average price:
the row carries no live-vs-fallback indicator, so the degraded valuation is
presented indistinguishably from a live quote — contradicting the claimed
surfacing of a `DegradedValuation` condition. -/
theorem fallback_row_indistinguishable (sym : String) (pos : Position) :
    buildRow sym pos none = buildRow sym pos (some pos.avg_price) := rfl

/-- C10: `execute_trade` performs no validation of the quantity argument:
with `quantity = 0`, a positive price, and a symbol not already held, a BUY
computes cost 0, passes the funds check (succeeds), appends a transaction
with total 0, and inserts a position entry with quantity 0 into the
positions map. -/
theorem zero_qty_buy_unvalidated (st : Account) (sym : String) (price : ℚ)
    (hb : 0 ≤ st.balance) (hp : 0 < price)
    (hnone : lookup st.portfolio sym = none) :
    (execute_trade st Action.BUY sym price 0).2 = TradeResult.success ∧
    (execute_trade st Action.BUY sym price 0).1.transactions =
      st.transactions ++
        [{ ttype := Action.BUY, symbol := sym, price := round2 price, qty := 0, total := 0 }] ∧
    lookup (execute_trade st Action.BUY sym price 0).1.portfolio sym =
      some (Position.mk 0 (round2 price)) := by
  have h0 : round2 (0 : ℚ) = 0 := by
    rw [round2_cert (0:ℚ) 0 (by norm_num)]
    norm_num
  have hcost : round2 (round2 price * ((0:ℕ) : ℚ)) = 0 := by
    rw [Nat.cast_zero, mul_zero, h0]
  have hcond : st.balance ≥ round2 (round2 price * ((0:ℕ) : ℚ)) := by
    rw [hcost]
    exact hb
  refine ⟨?_, ?_, ?_⟩
  · simp [execute_trade, h0, hb]
  · simp only [execute_trade, if_pos hcond, hnone]
    rw [hcost]
    simp
  · simp only [execute_trade, if_pos hcond, hnone]
    rw [lookup_append_single, hnone]
    simp

/-- Witness for C10: BUY of 0 shares of an unheld symbol at $10 on the fresh
account succeeds, logs a 0-total transaction, and stores a 0-quantity
position. -/
theorem zero_qty_buy_unvalidated_witness :
    0 ≤ initialAccount.balance ∧ 0 < (10 : ℚ) ∧
    lookup initialAccount.portfolio "A" = none ∧
    ((execute_trade initialAccount Action.BUY "A" 10 0).2 = TradeResult.success ∧
     (execute_trade initialAccount Action.BUY "A" 10 0).1.transactions =
       initialAccount.transactions ++
         [{ ttype := Action.BUY, symbol := "A", price := round2 10, qty := 0, total := 0 }] ∧
     lookup (execute_trade initialAccount Action.BUY "A" 10 0).1.portfolio "A" =
       some (Position.mk 0 (round2 10))) :=
  ⟨by norm_num [initialAccount], by norm_num, by simp [initialAccount, lookup],
   zero_qty_buy_unvalidated initialAccount "A" 10
     (by norm_num [initialAccount]) (by norm_num) (by simp [initialAccount, lookup])⟩

end ProTrade
